import Mathlib

/-!
Verification of the RAID-1 mirror module (`module/bdev/raid/raid1.c`) and the
lvol fragmap scanner (`module/bdev/lvol/vbdev_lvol_rpc.c`).

The C code is shallowly embedded: each C function that a claim refers to is
translated into an executable Lean definition over explicit state.  External
collaborators (the generic raid framework, the bdev layer, malloc) are
modelled by oracle parameters: a `Bool` for an allocation outcome, an
`Int`-valued function for the return code of a submission call, a
`Nat → Bool` for per-base channel presence.  Machine integers are modelled by
`Nat`; the only place where the 64-bit range matters (the `UINT64_MAX`
sentinel of the read-selection loop) is modelled explicitly.
-/

namespace Spdk

/-- Model of `spdk_bit_array`: a fixed-capacity bit set.  `spdk_bit_array_set` on an
out-of-range index is a no-op returning `-EINVAL` (modelled by `List.set`,
which leaves the list unchanged out of range); `spdk_bit_array_get` out of
range returns `false` (modelled by `getD`). -/
structure BitArray where
  bits : List Bool
deriving DecidableEq, Repr

/-- Model of `spdk_bit_array_create(cap)`: all bits clear. -/
def bitArrayCreate (cap : Nat) : BitArray :=
  ⟨List.replicate cap false⟩

/-- Model of `spdk_bit_array_set(b, i)` (out of range: no-op). -/
def BitArray.set (b : BitArray) (i : Nat) : BitArray :=
  ⟨b.bits.set i true⟩

/-- Model of `spdk_bit_array_get(b, i)` (out of range: `false`). -/
def BitArray.get (b : BitArray) (i : Nat) : Bool :=
  b.bits.getD i false

/-- Model of `spdk_bit_array_capacity(b)`. -/
def BitArray.capacity (b : BitArray) : Nat :=
  b.bits.length

/-- The C loop `for (s = start; s <= stop; s++) set(b, s);` — sets `cnt`
consecutive bits starting at `start`. -/
def setManyFrom (b : BitArray) (start : Nat) : Nat → BitArray
  | 0 => b
  | cnt + 1 => setManyFrom (b.set start) (start + 1) cnt

/-- Sets every index in the inclusive range `[start, stop]` (empty when
`stop < start`), exactly as the C loop with its `<=` bound. -/
def setRangeIncl (b : BitArray) (start stop : Nat) : BitArray :=
  setManyFrom b start (stop + 1 - start)

theorem BitArray.get_set (b : BitArray) (i j : Nat) :
    (b.set i).get j = if i = j ∧ i < b.bits.length then true else b.get j := by
  simp only [BitArray.set, BitArray.get, List.getD_eq_getElem?_getD, List.getElem?_set]
  by_cases hij : i = j
  · subst hij
    by_cases hl : i < b.bits.length
    · simp [hl]
    · simp [hl, List.getElem?_eq_none (by omega : b.bits.length ≤ i)]
  · simp [hij]

theorem BitArray.length_set (b : BitArray) (i : Nat) :
    (b.set i).bits.length = b.bits.length := by
  simp [BitArray.set]

theorem BitArray.get_of_length_le (b : BitArray) (i : Nat) (h : b.bits.length ≤ i) :
    b.get i = false := by
  simp [BitArray.get, List.getD_eq_getElem?_getD, List.getElem?_eq_none h]

theorem setManyFrom_length (b : BitArray) (s cnt : Nat) :
    (setManyFrom b s cnt).bits.length = b.bits.length := by
  induction cnt generalizing b s with
  | zero => rfl
  | succ m ih => simp [setManyFrom, ih, BitArray.length_set]

theorem setManyFrom_get (b : BitArray) (s cnt k : Nat) :
    (setManyFrom b s cnt).get k =
      (b.get k || (decide (s ≤ k) && decide (k < s + cnt) && decide (k < b.bits.length))) := by
  induction cnt generalizing b s with
  | zero =>
    simp only [setManyFrom]
    by_cases hs : s ≤ k
    · by_cases hk : k < s + 0
      · omega
      · simp [hk]
    · simp [hs]
  | succ m ih =>
    simp only [setManyFrom]
    rw [ih, BitArray.get_set, BitArray.length_set]
    by_cases hks : k = s
    · subst hks
      by_cases hl : k < b.bits.length
      · simp only [hl, and_true, if_pos (And.intro rfl hl), Bool.true_or]
        have hs : k ≤ k := le_refl k
        have hk2 : k < k + (m + 1) := by omega
        simp [hs, hk2, hl]
      · have hl' : ¬ (k = k ∧ k < b.bits.length) := by tauto
        simp only [if_neg hl']
        have : ¬ k < b.bits.length := hl
        simp [this]
    · have hne : ¬ (s = k ∧ s < b.bits.length) := by tauto
      simp only [if_neg hne]
      congr 1
      by_cases h1 : s + 1 ≤ k
      · by_cases h2 : k < s + 1 + m
        · have h1' : s ≤ k := by omega
          have h2' : k < s + (m + 1) := by omega
          simp [h1, h2, h1', h2']
        · have h2' : ¬ k < s + (m + 1) := by omega
          simp [h2, h2']
      · have h1' : ¬ s ≤ k := by omega
        simp [h1, h1']

theorem setRangeIncl_get (b : BitArray) (start stop k : Nat) :
    (setRangeIncl b start stop).get k =
      (b.get k ||
        (decide (start ≤ k) && decide (k ≤ stop) && decide (k < b.bits.length))) := by
  rw [setRangeIncl, setManyFrom_get]
  congr 1
  by_cases h1 : start ≤ k
  · by_cases h2 : k ≤ stop
    · have h3 : k < start + (stop + 1 - start) := by omega
      simp [h1, h2, h3]
    · have h3 : ¬ k < start + (stop + 1 - start) := by omega
      simp [h2, h3]
  · simp [h1]

/-- Model of `enum base_bdev_state` from the raid framework headers: the per-channel
faulty-tracking state of a base bdev. -/
inductive BaseBdevState
  | NONE
  | FAULTY
  | FAULTY_STOPPED
deriving DecidableEq, Repr

/-- The slice of `struct raid1_io_channel` belonging to one base bdev index:
`states[idx]` and `delta_bitmaps[idx]` (`none` models a NULL bitmap
pointer). -/
structure Raid1ChannelSlot where
  state : BaseBdevState
  deltaBitmap : Option BitArray
deriving DecidableEq, Repr

/-- The bit recorded for region `k` of a slot's delta bitmap (`false` when
the bitmap pointer is NULL). -/
def slotBit (s : Raid1ChannelSlot) (k : Nat) : Bool :=
  match s.deltaBitmap with
  | some bm => bm.get k
  | none => false

/-- Model of `raid1_handle_faulty_base_bdev` acting on the faulty base's channel slot.
`blockcnt` and `boundary` are `bdev->blockcnt` and
`bdev->optimal_io_boundary`; `enabled` is `raid_bdev->delta_bitmap_enabled`;
`offset`/`num` are `raid_io->offset_blocks`/`num_blocks`; `allocOk` is the
outcome of the `spdk_bit_array_create` call on the lazy-allocation path. -/
def raid1_handle_faulty_base_bdev (blockcnt boundary : Nat) (enabled : Bool)
    (offset num : Nat) (allocOk : Bool) (slot : Raid1ChannelSlot) : Raid1ChannelSlot :=
  if slot.state = .FAULTY ∨ (slot.state = .NONE ∧ enabled = true) then
    let start_section := offset / boundary
    let end_section := (offset + num - 1) / boundary
    match slot.deltaBitmap with
    | none =>
      if allocOk then
        ⟨.FAULTY, some (setRangeIncl (bitArrayCreate (blockcnt / boundary)) start_section end_section)⟩
      else
        ⟨.FAULTY_STOPPED, none⟩
    | some bm =>
      ⟨slot.state, some (setRangeIncl bm start_section end_section)⟩
  else
    slot

/-- IO terminal status (`SPDK_BDEV_IO_STATUS_SUCCESS` / `FAILED`). -/
inductive IoStatus
  | success
  | failed
deriving DecidableEq, Repr

/-- Model of `raid1_correct_read_error_completion`: the completion callback of the
read-repair write-back.  Its inputs are the write-back's completion flag and
the channel slot of the originally failing base (the one at index
`raid_io->base_bdev_io_submitted`, as returned by
`raid1_get_read_io_base_bdev`).  It returns the updated slot, whether
`raid_bdev_fail_base_bdev` was invoked on that base, and the status passed
to `raid_bdev_io_complete`. -/
def raid1_correct_read_error_completion (blockcnt boundary : Nat) (enabled : Bool)
    (offset num : Nat) (allocOk : Bool) (success : Bool) (slot : Raid1ChannelSlot) :
    Raid1ChannelSlot × Bool × IoStatus :=
  if success then
    (slot, false, .success)
  else
    (raid1_handle_faulty_base_bdev blockcnt boundary enabled offset num allocOk slot,
     true, .success)

/-- The per-slot invariant of `raid1_io_channel`: a slot in state `NONE` has
no delta bitmap.  It holds at channel creation (`raid1_ioch_create` zeroes
both arrays) and is preserved by `raid1_handle_faulty_base_bdev` and by
`channel_faulty_base_bdev` (see the preservation lemmas below). -/
def SlotInv (slot : Raid1ChannelSlot) : Prop :=
  slot.state = .NONE → slot.deltaBitmap = none

theorem slotInv_create : SlotInv ⟨.NONE, none⟩ := fun _ => rfl

theorem slotInv_handle_faulty (blockcnt boundary : Nat) (enabled : Bool)
    (offset num : Nat) (allocOk : Bool) (slot : Raid1ChannelSlot) (h : SlotInv slot) :
    SlotInv (raid1_handle_faulty_base_bdev blockcnt boundary enabled offset num allocOk slot) := by
  unfold raid1_handle_faulty_base_bdev
  split
  · rcases hbm : slot.deltaBitmap with _ | bm <;> simp only [hbm]
    · split
      · intro hst
        simp at hst
      · intro _
        rfl
    · intro hst
      simp only at hst
      have := h hst
      rw [hbm] at this
      exact absurd this (by simp)
  · exact h

/-- Claim C4: when `raid1_handle_faulty_base_bdev` runs with the slot in
state `FAULTY`, or in state `NONE` with delta tracking enabled, and the
per-channel delta bitmap exists or its lazy allocation succeeds, then every
region bit in the inclusive range
`[offset / boundary, (offset + num - 1) / boundary]` becomes set (`hcap`
bounds the last bit by the relevant bitmap capacity), no previously set bit
is cleared, and the slot state afterwards is `FAULTY`.  `hinv` is the
channel invariant that a `NONE` slot carries no bitmap. -/
theorem handle_faulty_sets_range (blockcnt boundary : Nat) (enabled : Bool)
    (offset num : Nat) (allocOk : Bool) (slot : Raid1ChannelSlot) (k : Nat)
    (hb : 0 < boundary) (hn : 0 < num)
    (hstate : slot.state = .FAULTY ∨ (slot.state = .NONE ∧ enabled = true))
    (halloc : slot.deltaBitmap.isSome = true ∨ allocOk = true)
    (hinv : SlotInv slot)
    (hcap : (offset + num - 1) / boundary <
      (match slot.deltaBitmap with
       | some bm => bm.bits.length
       | none => blockcnt / boundary)) :
    (raid1_handle_faulty_base_bdev blockcnt boundary enabled offset num allocOk slot).state
        = .FAULTY ∧
    (offset / boundary ≤ k → k ≤ (offset + num - 1) / boundary →
      slotBit (raid1_handle_faulty_base_bdev blockcnt boundary enabled offset num allocOk slot) k
        = true) ∧
    (slotBit slot k = true →
      slotBit (raid1_handle_faulty_base_bdev blockcnt boundary enabled offset num allocOk slot) k
        = true) := by
  have hcond : slot.state = .FAULTY ∨ (slot.state = .NONE ∧ enabled = true) := hstate
  unfold raid1_handle_faulty_base_bdev
  rw [if_pos hcond]
  rcases hbm : slot.deltaBitmap with _ | bm
  · have hok : allocOk = true := by
      rcases halloc with h | h
      · rw [hbm] at h
        exact absurd h (by simp)
      · exact h
    rw [hbm] at hcap
    simp only at hcap
    simp only [hbm, if_pos hok]
    refine ⟨trivial, ?_, ?_⟩
    · intro h1 h2
      simp only [slotBit]
      rw [setRangeIncl_get]
      have hlen : (bitArrayCreate (blockcnt / boundary)).bits.length = blockcnt / boundary := by
        simp [bitArrayCreate]
      rw [hlen]
      have hk : k < blockcnt / boundary := by omega
      simp [h1, h2, hk]
    · intro h
      simp only [slotBit, hbm] at h
      exact absurd h (by simp)
  · rw [hbm] at hcap
    simp only at hcap
    have hst : slot.state = .FAULTY := by
      rcases hcond with h | h
      · exact h
      · have := hinv h.1
        rw [hbm] at this
        exact absurd this (by simp)
    simp only [hbm]
    refine ⟨hst, ?_, ?_⟩
    · intro h1 h2
      simp only [slotBit]
      rw [setRangeIncl_get]
      have hk : k < bm.bits.length := by omega
      simp [h1, h2, hk]
    · intro h
      simp only [slotBit, hbm] at h
      simp only [slotBit]
      rw [setRangeIncl_get, h]
      simp

/-- Witness for C4: a concrete `FAULTY` slot with a 4-bit bitmap whose bit 3
is already set; a write covering blocks `[2, 6)` with boundary 2 sets region
bits 1 and 2, keeps bit 3, and leaves the state `FAULTY`. -/
theorem handle_faulty_sets_range_witness :
    (0 < 2 ∧ 0 < 4 ∧
      SlotInv ⟨.FAULTY, some ⟨[false, false, false, true]⟩⟩ ∧
      (2 + 4 - 1) / 2 < 4) ∧
    ((raid1_handle_faulty_base_bdev 8 2 true 2 4 true
        ⟨.FAULTY, some ⟨[false, false, false, true]⟩⟩).state = .FAULTY ∧
     (2 / 2 ≤ 1 → 1 ≤ (2 + 4 - 1) / 2 →
       slotBit (raid1_handle_faulty_base_bdev 8 2 true 2 4 true
         ⟨.FAULTY, some ⟨[false, false, false, true]⟩⟩) 1 = true) ∧
     (slotBit ⟨.FAULTY, some ⟨[false, false, false, true]⟩⟩ 1 = true →
       slotBit (raid1_handle_faulty_base_bdev 8 2 true 2 4 true
         ⟨.FAULTY, some ⟨[false, false, false, true]⟩⟩) 1 = true)) :=
  ⟨⟨by decide, by decide, fun h => by simp at h, by decide⟩,
   handle_faulty_sets_range 8 2 true 2 4 true
     ⟨.FAULTY, some ⟨[false, false, false, true]⟩⟩ 1
     (by decide) (by decide) (Or.inl rfl) (Or.inl rfl)
     (fun h => by simp at h) (by decide)⟩

/-- Claim C10: once a slot is `FAULTY_STOPPED`, `raid1_handle_faulty_base_bdev`
is a no-op — no allocation retry, no bit set, state unchanged. -/
theorem handle_faulty_stopped_noop (blockcnt boundary : Nat) (enabled : Bool)
    (offset num : Nat) (allocOk : Bool) (slot : Raid1ChannelSlot)
    (h : slot.state = .FAULTY_STOPPED) :
    raid1_handle_faulty_base_bdev blockcnt boundary enabled offset num allocOk slot = slot := by
  unfold raid1_handle_faulty_base_bdev
  rw [if_neg]
  rw [h]
  simp

/-- Witness for C10 at a concrete `FAULTY_STOPPED` slot. -/
theorem handle_faulty_stopped_noop_witness :
    (Raid1ChannelSlot.mk .FAULTY_STOPPED none).state = .FAULTY_STOPPED ∧
    raid1_handle_faulty_base_bdev 8 2 true 0 4 true ⟨.FAULTY_STOPPED, none⟩
      = ⟨.FAULTY_STOPPED, none⟩ :=
  ⟨by decide,
   handle_faulty_stopped_noop 8 2 true 0 4 true ⟨.FAULTY_STOPPED, none⟩ rfl⟩

/-- Claim C1: when the read-repair write-back to the originally failing base
completes with failure, the completion calls `raid1_handle_faulty_base_bdev`
on that base's slot, externally fails the base via `raid_bdev_fail_base_bdev`,
and still completes the `mirror_io` with status SUCCESS. -/
theorem correct_read_error_completion_failure (blockcnt boundary : Nat) (enabled : Bool)
    (offset num : Nat) (allocOk : Bool) (success : Bool) (slot : Raid1ChannelSlot)
    (h : success = false) :
    raid1_correct_read_error_completion blockcnt boundary enabled offset num allocOk success slot
      = (raid1_handle_faulty_base_bdev blockcnt boundary enabled offset num allocOk slot,
         true, IoStatus.success) := by
  unfold raid1_correct_read_error_completion
  rw [h]
  simp

/-- Witness for C1 at a concrete failed write-back. -/
theorem correct_read_error_completion_failure_witness :
    (false = false) ∧
    raid1_correct_read_error_completion 8 2 true 0 4 true false ⟨.FAULTY, some ⟨[false, false]⟩⟩
      = (raid1_handle_faulty_base_bdev 8 2 true 0 4 true ⟨.FAULTY, some ⟨[false, false]⟩⟩,
         true, IoStatus.success) :=
  ⟨rfl,
   correct_read_error_completion_failure 8 2 true 0 4 true false
     ⟨.FAULTY, some ⟨[false, false]⟩⟩ rfl⟩

/-- Value of `UINT64_MAX`, the initial value of `read_blocks_min`. -/
def U64MAX : Nat := 2 ^ 64 - 1

/-- Value of `-ENOMEM` as returned by the submission helpers. -/
def ENOMEM : Int := -12

/-- One iteration of the selection loop in `raid1_channel_next_read_base_bdev`:
the accumulator is `(read_blocks_min, idx)` with `none` standing for the
`UINT8_MAX` sentinel. -/
def nextReadStep (present : Nat → Bool) (outs : Nat → Nat)
    (acc : Nat × Option Nat) (i : Nat) : Nat × Option Nat :=
  if present i = true ∧ outs i < acc.1 then (outs i, some i) else acc

/-- Model of `raid1_channel_next_read_base_bdev`: scan base indices `0 .. n-1`
(`n = raid_bdev->num_base_bdevs`), keeping the first index attaining the
strictly smallest outstanding-read-blocks count among bases whose per-channel
base channel is present.  `none` models the `UINT8_MAX` return. -/
def raid1_channel_next_read_base_bdev (n : Nat) (present : Nat → Bool)
    (outs : Nat → Nat) : Option Nat :=
  ((List.range n).foldl (nextReadStep present outs) (U64MAX, none)).2

/-- Outcome of `raid1_submit_read_request`. -/
inductive ReadSubmitOutcome
  | completedFailed
  | submitted (idx : Nat)
  | queued (idx : Nat)
  | errored (e : Int)
deriving DecidableEq, Repr

/-- Model of `raid1_submit_read_request`: pick a base; on the `UINT8_MAX` sentinel,
complete the `mirror_io` with status FAILED; otherwise submit the readv and
dispatch on the return code (`0` records the submitted index and bumps the
read counters; `-ENOMEM` parks the io on the wait queue; any other error is
returned to the caller). -/
def raid1_submit_read_request (n : Nat) (present : Nat → Bool) (outs : Nat → Nat)
    (submitRet : Nat → Int) : ReadSubmitOutcome :=
  match raid1_channel_next_read_base_bdev n present outs with
  | none => .completedFailed
  | some idx =>
    let r := submitRet idx
    if r = 0 then .submitted idx
    else if r = ENOMEM then .queued idx
    else .errored r

/-- The loop invariant of `raid1_channel_next_read_base_bdev` after the first
`m` iterations. -/
def NextReadInv (present : Nat → Bool) (outs : Nat → Nat) (m : Nat)
    (acc : Nat × Option Nat) : Prop :=
  match acc.2 with
  | none => acc.1 = U64MAX ∧ ∀ i, i < m → present i = false
  | some j => j < m ∧ present j = true ∧ outs j = acc.1 ∧
      (∀ i, i < m → present i = true → acc.1 ≤ outs i) ∧
      (∀ i, i < m → present i = true → outs i = acc.1 → j ≤ i)

theorem nextReadInv_none (present : Nat → Bool) (outs : Nat → Nat) (m mn : Nat) :
    NextReadInv present outs m (mn, none) ↔
      (mn = U64MAX ∧ ∀ i, i < m → present i = false) :=
  Iff.rfl

theorem nextReadInv_some (present : Nat → Bool) (outs : Nat → Nat) (m mn j : Nat) :
    NextReadInv present outs m (mn, some j) ↔
      (j < m ∧ present j = true ∧ outs j = mn ∧
        (∀ i, i < m → present i = true → mn ≤ outs i) ∧
        (∀ i, i < m → present i = true → outs i = mn → j ≤ i)) :=
  Iff.rfl

theorem nextRead_fold_inv (present : Nat → Bool) (outs : Nat → Nat)
    (hsat : ∀ i, present i = true → outs i < U64MAX) (m : Nat) :
    NextReadInv present outs m
      ((List.range m).foldl (nextReadStep present outs) (U64MAX, none)) := by
  induction m with
  | zero =>
    simp [NextReadInv]
  | succ m ih =>
    rw [List.range_succ, List.foldl_append]
    generalize hacc : (List.range m).foldl (nextReadStep present outs) (U64MAX, none) = acc at ih ⊢
    obtain ⟨mn, r⟩ := acc
    simp only [List.foldl_cons, List.foldl_nil]
    unfold nextReadStep
    rcases r with _ | j
    · rw [nextReadInv_none] at ih
      obtain ⟨hmin, habs⟩ := ih
      by_cases hc : present m = true ∧ outs m < mn
      · rw [if_pos hc, nextReadInv_some]
        refine ⟨by omega, hc.1, rfl, ?_, ?_⟩
        · intro i hi hp
          rcases Nat.lt_succ_iff_lt_or_eq.mp hi with h | h
          · exact absurd hp (by simp [habs i h])
          · subst h
            exact le_refl _
        · intro i hi hp _
          rcases Nat.lt_succ_iff_lt_or_eq.mp hi with h | h
          · exact absurd hp (by simp [habs i h])
          · omega
      · rw [if_neg hc, nextReadInv_none]
        refine ⟨hmin, ?_⟩
        intro i hi
        rcases Nat.lt_succ_iff_lt_or_eq.mp hi with h | h
        · exact habs i h
        · subst h
          by_cases hp : present i = true
          · exact absurd ⟨hp, by rw [hmin]; exact hsat i hp⟩ hc
          · simpa using hp
    · rw [nextReadInv_some] at ih
      obtain ⟨hjm, hpj, houtj, hmin, hties⟩ := ih
      by_cases hc : present m = true ∧ outs m < mn
      · rw [if_pos hc, nextReadInv_some]
        have hcm : outs m < mn := hc.2
        refine ⟨by omega, hc.1, rfl, ?_, ?_⟩
        · intro i hi hp
          rcases Nat.lt_succ_iff_lt_or_eq.mp hi with h | h
          · have := hmin i h hp
            omega
          · subst h
            exact le_refl _
        · intro i hi hp heq
          rcases Nat.lt_succ_iff_lt_or_eq.mp hi with h | h
          · have := hmin i h hp
            omega
          · omega
      · rw [if_neg hc, nextReadInv_some]
        refine ⟨by omega, hpj, houtj, ?_, ?_⟩
        · intro i hi hp
          rcases Nat.lt_succ_iff_lt_or_eq.mp hi with h | h
          · exact hmin i h hp
          · subst h
            by_cases hlt : outs i < mn
            · exact absurd ⟨hp, hlt⟩ hc
            · omega
        · intro i hi hp heq
          rcases Nat.lt_succ_iff_lt_or_eq.mp hi with h | h
          · exact hties i h hp heq
          · omega

/-- Claim C2: `raid1_channel_next_read_base_bdev` returns the lowest index
attaining the minimum outstanding-read-blocks count among the bases with a
present per-channel base channel, and the `UINT8_MAX` sentinel (modelled as
`none`) exactly when no base channel is present, in which case
`raid1_submit_read_request` completes the read with status FAILED.  The
hypothesis `hsat` states that no present base's counter has saturated at
`UINT64_MAX` (the initial value of `read_blocks_min`); the code's assert in
`raid1_channel_inc_read_counters` guards the counters against overflow. -/
theorem next_read_base_min (n : Nat) (present : Nat → Bool) (outs : Nat → Nat)
    (submitRet : Nat → Int)
    (hsat : ∀ i, present i = true → outs i < U64MAX) :
    (raid1_channel_next_read_base_bdev n present outs = none →
      (∀ i, i < n → present i = false) ∧
      raid1_submit_read_request n present outs submitRet = .completedFailed) ∧
    (∀ j, raid1_channel_next_read_base_bdev n present outs = some j →
      j < n ∧ present j = true ∧
      (∀ i, i < n → present i = true → outs j ≤ outs i) ∧
      (∀ i, i < n → present i = true → outs i = outs j → j ≤ i)) := by
  have hinv := nextRead_fold_inv present outs hsat n
  have hres : raid1_channel_next_read_base_bdev n present outs
      = ((List.range n).foldl (nextReadStep present outs) (U64MAX, none)).2 := rfl
  have hsub : raid1_submit_read_request n present outs submitRet
      = match raid1_channel_next_read_base_bdev n present outs with
        | none => .completedFailed
        | some idx =>
          if submitRet idx = 0 then .submitted idx
          else if submitRet idx = ENOMEM then .queued idx
          else .errored (submitRet idx) := rfl
  rw [hres] at hsub ⊢
  generalize hacc : (List.range n).foldl (nextReadStep present outs) (U64MAX, none) = acc
    at hinv hsub ⊢
  obtain ⟨mn, r⟩ := acc
  constructor
  · intro hnone
    have hr : r = none := hnone
    subst hr
    rw [nextReadInv_none] at hinv
    exact ⟨hinv.2, hsub⟩
  · intro j hsome
    have hr : r = some j := hsome
    subst hr
    rw [nextReadInv_some] at hinv
    obtain ⟨hjn, hpj, houtj, hmin, hties⟩ := hinv
    refine ⟨hjn, hpj, ?_, ?_⟩
    · intro i hi hp
      have := hmin i hi hp
      omega
    · intro i hi hp heq
      exact hties i hi hp (by omega)

/-- Witness for C2 on a 3-base mirror where base 1 has no channel and base 2
holds the strictly smallest counter: the selection returns index 2. -/
theorem next_read_base_min_witness :
    (∀ i, (fun i => decide (i ≠ 1)) i = true → (fun i => [5, 9, 3].getD i 0) i < U64MAX) ∧
    ((raid1_channel_next_read_base_bdev 3 (fun i => decide (i ≠ 1))
        (fun i => [5, 9, 3].getD i 0) = none →
      (∀ i, i < 3 → (fun i => decide (i ≠ 1)) i = false) ∧
      raid1_submit_read_request 3 (fun i => decide (i ≠ 1))
        (fun i => [5, 9, 3].getD i 0) (fun _ => 0) = .completedFailed) ∧
    (∀ j, raid1_channel_next_read_base_bdev 3 (fun i => decide (i ≠ 1))
        (fun i => [5, 9, 3].getD i 0) = some j →
      j < 3 ∧ (fun i => decide (i ≠ 1)) j = true ∧
      (∀ i, i < 3 → (fun i => decide (i ≠ 1)) i = true →
        [5, 9, 3].getD j 0 ≤ [5, 9, 3].getD i 0) ∧
      (∀ i, i < 3 → (fun i => decide (i ≠ 1)) i = true →
        [5, 9, 3].getD i 0 = [5, 9, 3].getD j 0 → j ≤ i))) :=
  have hs : ∀ i, (fun i => decide (i ≠ 1)) i = true → (fun i => [5, 9, 3].getD i 0) i < U64MAX := by
    intro i _
    show [5, 9, 3].getD i 0 < U64MAX
    rcases i with _ | _ | _ | m <;> simp [List.getD, U64MAX]
  ⟨hs, next_read_base_min 3 (fun i => decide (i ≠ 1)) (fun i => [5, 9, 3].getD i 0)
    (fun _ => 0) hs⟩

/-- Observable per-slot actions of the all-replicas submission loops.
`completePart c st` is `raid_bdev_io_complete_part(raid_io, c, st)`;
`handleFaultyBase` is a call to `raid1_handle_faulty_base_bdev` for the
slot; `trySubmit` is the leg's submission call; `queueIoWait` is
`raid_bdev_queue_io_wait`. -/
inductive LegEffect
  | handleFaultyBase (idx : Nat)
  | completePart (count : Nat) (st : IoStatus)
  | trySubmit (idx : Nat)
  | queueIoWait (idx : Nat)
deriving DecidableEq, Repr

/-- The slot loop of `raid1_submit_write_request`, from cursor
`idx = raid_io->base_bdev_io_submitted` up to `n = num_base_bdevs`.
`chPresent i` models `raid_bdev_channel_get_base_channel(raid_ch, i) != NULL`
and `submitRet i` the return of `raid_bdev_writev_blocks_ext` for slot `i`.
The returned list is the sequence of observable actions; reaching the end of
the list means either the loop ran to completion or it returned early after
queueing / aggregating the unsubmitted legs as FAILED. -/
def raid1_submit_write_loop (n : Nat) (chPresent : Nat → Bool) (submitRet : Nat → Int)
    (idx : Nat) : List LegEffect :=
  if h : idx < n then
    if chPresent idx = false then
      .handleFaultyBase idx :: .completePart 1 .failed ::
        raid1_submit_write_loop n chPresent submitRet (idx + 1)
    else if submitRet idx = ENOMEM then
      [.trySubmit idx, .queueIoWait idx]
    else if submitRet idx ≠ 0 then
      [.trySubmit idx, .completePart (n - idx) .failed]
    else
      .trySubmit idx :: raid1_submit_write_loop n chPresent submitRet (idx + 1)
  else
    []
termination_by n - idx

/-- The slot loop of `submit_null_payload_request` (UNMAP and FLUSH follow
the identical structure; the absent-channel branch precedes the op-type
switch). -/
def submit_null_payload_loop (n : Nat) (chPresent : Nat → Bool) (submitRet : Nat → Int)
    (idx : Nat) : List LegEffect :=
  if h : idx < n then
    if chPresent idx = false then
      .completePart 1 .success ::
        submit_null_payload_loop n chPresent submitRet (idx + 1)
    else if submitRet idx = ENOMEM then
      [.trySubmit idx, .queueIoWait idx]
    else if submitRet idx ≠ 0 then
      [.trySubmit idx, .completePart (n - idx) .failed]
    else
      .trySubmit idx :: submit_null_payload_loop n chPresent submitRet (idx + 1)
  else
    []
termination_by n - idx

/-- Claim C3: in the all-replicas loops, a slot whose per-channel base
channel is absent is handled without submission: the WRITE loop calls
`raid1_handle_faulty_base_bdev` for the slot and aggregates the leg as
FAILED, the UNMAP/FLUSH loop aggregates the leg as SUCCESS, and both
advance the cursor past the slot and continue with the next slot. -/
theorem absent_channel_slot_handling (n : Nat) (chPresent : Nat → Bool)
    (submitRet : Nat → Int) (idx : Nat)
    (hlt : idx < n) (habs : chPresent idx = false) :
    raid1_submit_write_loop n chPresent submitRet idx
      = .handleFaultyBase idx :: .completePart 1 .failed ::
          raid1_submit_write_loop n chPresent submitRet (idx + 1) ∧
    submit_null_payload_loop n chPresent submitRet idx
      = .completePart 1 .success ::
          submit_null_payload_loop n chPresent submitRet (idx + 1) := by
  constructor
  · rw [raid1_submit_write_loop.eq_def]
    rw [dif_pos hlt, if_pos habs]
  · rw [submit_null_payload_loop.eq_def]
    rw [dif_pos hlt, if_pos habs]

/-- Witness for C3: a 3-base mirror whose slot 1 has no channel. -/
theorem absent_channel_slot_handling_witness :
    (1 < 3 ∧ (fun i => decide (i ≠ 1)) 1 = false) ∧
    (raid1_submit_write_loop 3 (fun i => decide (i ≠ 1)) (fun _ => 0) 1
      = .handleFaultyBase 1 :: .completePart 1 .failed ::
          raid1_submit_write_loop 3 (fun i => decide (i ≠ 1)) (fun _ => 0) 2 ∧
     submit_null_payload_loop 3 (fun i => decide (i ≠ 1)) (fun _ => 0) 1
      = .completePart 1 .success ::
          submit_null_payload_loop 3 (fun i => decide (i ≠ 1)) (fun _ => 0) 2) :=
  ⟨⟨by decide, by decide⟩,
   absent_channel_slot_handling 3 (fun i => decide (i ≠ 1)) (fun _ => 0) 1
     (by decide) (by decide)⟩

/-- Outcome of one activation of `raid1_read_other_base_bdev`. `submitted i`:
the probe readv to base `i` was accepted; `queued i`: `-ENOMEM`, the io was
parked on base `i`'s wait queue; `failedComplete`: the loop ended (by
exhaustion or by `break` on a permanent submission error), the original base
is failed via `raid_bdev_fail_base_bdev` and the `mirror_io` completes with
status FAILED. -/
inductive RepairOutcome
  | submitted (idx : Nat)
  | queued (idx : Nat)
  | failedComplete
deriving DecidableEq, Repr

/-- Model of `raid1_read_other_base_bdev`: scan bases from
`i = num_base_bdevs - base_bdev_io_remaining`, decrementing `remaining` over
skipped slots (absent channel, or the originally submitted base `sub`).  On
the first submittable alternate, dispatch on the readv return code; note
that a return code other than `0` and `-ENOMEM` executes `break`, leaving
the loop to the fail-and-complete epilogue. -/
def raid1_read_other_base_bdev (n : Nat) (present : Nat → Bool) (sub : Nat)
    (submitRet : Nat → Int) : Nat → RepairOutcome
  | 0 => .failedComplete
  | remaining + 1 =>
    let i := n - (remaining + 1)
    if i < n then
      if present i = false ∨ i = sub then
        raid1_read_other_base_bdev n present sub submitRet remaining
      else if submitRet i = ENOMEM then
        .queued i
      else if submitRet i ≠ 0 then
        .failedComplete
      else
        .submitted i
    else
      .failedComplete

/-- Counterexample for C6: a 3-base mirror, original read on base 0, all
channels present.  The probe submission to base 1 returns `-EIO` (-5); the
claim says the dispatcher skips base 1 and tries base 2 (whose submission
would return 0, i.e. outcome `submitted 2`), but the code `break`s out of
the scan and completes the `mirror_io` FAILED. -/
theorem read_other_error_counterexample :
    raid1_read_other_base_bdev 3 (fun _ => true) 0 (fun i => if i = 1 then -5 else 0) 3
      = RepairOutcome.failedComplete ∧
    RepairOutcome.failedComplete ≠ RepairOutcome.submitted 2 := by
  constructor
  · rfl
  · decide

/-- Claim C6 as amended: during read-repair, when the probe readv submission
to a present alternate base `i ≠ sub` returns an error other than `-ENOMEM`,
`raid1_read_other_base_bdev` does not try further alternates: it terminates
the repair scan, externally fails the original base, and completes the
`mirror_io` with status FAILED (`failedComplete`). -/
theorem read_other_error_terminates (n : Nat) (present : Nat → Bool) (sub : Nat)
    (submitRet : Nat → Int) (remaining : Nat)
    (hlt : n - remaining < n)
    (hp : present (n - remaining) = true)
    (hsub : n - remaining ≠ sub)
    (hr0 : submitRet (n - remaining) ≠ 0)
    (hrm : submitRet (n - remaining) ≠ ENOMEM) :
    raid1_read_other_base_bdev n present sub submitRet remaining
      = RepairOutcome.failedComplete := by
  match remaining, hlt with
  | 0, hlt => exact absurd hlt (by omega)
  | r + 1, hlt =>
    unfold raid1_read_other_base_bdev
    rw [if_pos hlt]
    rw [if_neg (by simp [hp, hsub]), if_neg hrm, if_pos hr0]

/-- Witness for the amended C6 at the counterexample configuration. -/
theorem read_other_error_terminates_witness :
    (3 - 2 < 3 ∧ (fun _ => true) (3 - 2) = true ∧ 3 - 2 ≠ 0 ∧
      (fun i => if i = 1 then (-5 : Int) else 0) (3 - 2) ≠ 0 ∧
      (fun i => if i = 1 then (-5 : Int) else 0) (3 - 2) ≠ ENOMEM) ∧
    raid1_read_other_base_bdev 3 (fun _ => true) 0 (fun i => if i = 1 then -5 else 0) 2
      = RepairOutcome.failedComplete :=
  ⟨⟨by decide, rfl, by decide, by decide, by decide⟩,
   read_other_error_terminates 3 (fun _ => true) 0 (fun i => if i = 1 then -5 else 0) 2
     (by decide) rfl (by decide) (by decide) (by decide)⟩

/-- Modelled from the spec: `raid_bdev_delta_bitmap_region_blocks_number`
lives in the raid framework (`bdev_raid.h`), which is not part of the
mirror-module sources; per the spec the number of delta regions is
`ceil(total_blocks / region_blocks)` with `region_blocks` the mirror's
optimal-IO boundary. -/
def raid_bdev_delta_bitmap_region_blocks_number (blockcnt boundary : Nat) : Nat :=
  (blockcnt + boundary - 1) / boundary

/-- The hand-off loop of `channel_faulty_base_bdev` on the FAULTY →
FAULTY_STOPPED transition:
`for (i = 0; i < regionN; i++) if (get(src, i)) set(dst, i);`. -/
def orInto (regionN : Nat) (src dst : BitArray) : BitArray :=
  (List.range regionN).foldl (fun acc i => if src.get i = true then acc.set i else acc) dst

theorem orInto_length (regionN : Nat) (src dst : BitArray) :
    (orInto regionN src dst).bits.length = dst.bits.length := by
  induction regionN generalizing dst with
  | zero => rfl
  | succ m ih =>
    unfold orInto at ih ⊢
    rw [List.range_succ, List.foldl_append]
    simp only [List.foldl_cons, List.foldl_nil]
    split
    · rw [BitArray.length_set, ih]
    · rw [ih]

theorem orInto_get (regionN : Nat) (src dst : BitArray) (k : Nat) :
    (orInto regionN src dst).get k =
      (dst.get k ||
        (src.get k && decide (k < regionN) && decide (k < dst.bits.length))) := by
  induction regionN generalizing dst with
  | zero =>
    simp [orInto]
  | succ m ih =>
    unfold orInto at ih ⊢
    rw [List.range_succ, List.foldl_append]
    simp only [List.foldl_cons, List.foldl_nil]
    generalize hmid : (List.range m).foldl
      (fun acc i => if src.get i = true then acc.set i else acc) dst = mid
    have hmidlen : mid.bits.length = dst.bits.length := by
      rw [← hmid]
      exact orInto_length m src dst
    have hmidget : mid.get k =
        (dst.get k || (src.get k && decide (k < m) && decide (k < dst.bits.length))) := by
      rw [← hmid]
      exact ih dst
    by_cases hs : src.get m = true
    · rw [if_pos hs, BitArray.get_set, hmidlen]
      by_cases hkm : m = k
      · subst hkm
        by_cases hl : m < dst.bits.length
        · simp [hl, hs]
        · simp only [if_neg (by tauto : ¬(m = m ∧ m < dst.bits.length))]
          rw [hmidget]
          have hl' : decide (m < dst.bits.length) = false := by simp [hl]
          simp [hl']
      · rw [if_neg (by tauto), hmidget]
        congr 1
        by_cases h1 : k < m
        · have h2 : k < m + 1 := by omega
          simp [h1, h2]
        · by_cases h2 : k < m + 1
          · have hk : k = m := by omega
            exact absurd hk.symm hkm
          · simp [h1, h2]
    · rw [if_neg hs, hmidget]
      have hs' : src.get k = false ∨ k ≠ m := by
        by_cases hkm : k = m
        · subst hkm
          left
          simpa using hs
        · right
          exact hkm
      congr 1
      rcases hs' with h | h
      · simp [h]
      · congr 1
        congr 1
        by_cases h1 : k < m
        · have h2 : k < m + 1 := by omega
          simp [h1, h2]
        · have h2 : ¬ k < m + 1 := by omega
          simp [h1, h2]

/-- Model of `channel_faulty_base_bdev`: the external hand-off transition for
(base, channel, newState).  `regionN` is
`raid_bdev_delta_bitmap_region_blocks_number(bdev)`; `allocOk` the outcome
of the NONE→FAULTY bitmap allocation; `baseBitmap` the mirror-owned
`base_info->delta_bitmap`.  Returns the C return code (`0` or `-ENOMEM`),
the updated channel slot, and the updated mirror-owned bitmap. -/
def channel_faulty_base_bdev (regionN : Nat) (allocOk : Bool)
    (slot : Raid1ChannelSlot) (baseBitmap : BitArray) (newState : BaseBdevState) :
    Int × Raid1ChannelSlot × BitArray :=
  if slot.state = .NONE ∧ newState = .FAULTY then
    if allocOk then
      (0, ⟨newState, some (bitArrayCreate regionN)⟩, baseBitmap)
    else
      (ENOMEM, slot, baseBitmap)
  else if slot.state = .FAULTY ∧ newState = .FAULTY_STOPPED then
    (0, ⟨newState, slot.deltaBitmap⟩,
     orInto regionN (slot.deltaBitmap.getD (bitArrayCreate 0)) baseBitmap)
  else if (slot.state = .FAULTY ∨ slot.state = .FAULTY_STOPPED) ∧ newState = .NONE then
    (0, ⟨newState, none⟩, baseBitmap)
  else if slot.state = .FAULTY_STOPPED ∧ newState = .FAULTY then
    (ENOMEM, slot, baseBitmap)
  else
    (0, ⟨newState, slot.deltaBitmap⟩, baseBitmap)

/-- The per-slot channel invariant is preserved by the hand-off function. -/
theorem slotInv_channel_faulty (regionN : Nat) (allocOk : Bool)
    (slot : Raid1ChannelSlot) (baseBitmap : BitArray) (newState : BaseBdevState)
    (h : SlotInv slot) :
    SlotInv (channel_faulty_base_bdev regionN allocOk slot baseBitmap newState).2.1 := by
  unfold channel_faulty_base_bdev
  by_cases h1 : slot.state = .NONE ∧ newState = .FAULTY
  · rw [if_pos h1]
    by_cases ha : allocOk = true
    · rw [if_pos ha]
      intro hst
      have hst' : newState = .NONE := hst
      rw [hst'] at h1
      exact absurd h1.2 (by simp)
    · rw [if_neg ha]
      exact h
  · rw [if_neg h1]
    by_cases h2 : slot.state = .FAULTY ∧ newState = .FAULTY_STOPPED
    · rw [if_pos h2]
      intro hst
      have hst' : newState = .NONE := hst
      rw [hst'] at h2
      exact absurd h2.2 (by simp)
    · rw [if_neg h2]
      by_cases h3 : (slot.state = .FAULTY ∨ slot.state = .FAULTY_STOPPED) ∧ newState = .NONE
      · rw [if_pos h3]
        intro _
        rfl
      · rw [if_neg h3]
        by_cases h4 : slot.state = .FAULTY_STOPPED ∧ newState = .FAULTY
        · rw [if_pos h4]
          exact h
        · rw [if_neg h4]
          intro hst
          have hst' : newState = .NONE := hst
          subst hst'
          have hstN : slot.state = .NONE := by
            rcases hs : slot.state with _ | _ | _
            · rfl
            · exact absurd ⟨Or.inl hs, rfl⟩ h3
            · exact absurd ⟨Or.inr hs, rfl⟩ h3
          exact h hstN

/-- Claim C5: on the FAULTY → FAULTY_STOPPED hand-off, the mirror-owned
base delta bitmap afterwards is the bitwise OR of its prior contents with
the per-channel delta bitmap (stated pointwise at every region index `k`),
and the per-channel state becomes FAULTY_STOPPED.  `hconf` confines the
channel bitmap's set bits to the region count (its capacity never exceeds
the region count) and `hcapB` says the mirror-owned bitmap has room for all
regions; both reflect the allocation sites. -/
theorem channel_faulty_handoff_or (regionN : Nat) (allocOk : Bool)
    (slot : Raid1ChannelSlot) (cb baseBitmap : BitArray) (newState : BaseBdevState)
    (k : Nat)
    (hst : slot.state = .FAULTY) (hnew : newState = .FAULTY_STOPPED)
    (hcb : slot.deltaBitmap = some cb)
    (hconf : ∀ i, regionN ≤ i → cb.get i = false)
    (hcapB : regionN ≤ baseBitmap.bits.length) :
    (channel_faulty_base_bdev regionN allocOk slot baseBitmap newState).1 = 0 ∧
    (channel_faulty_base_bdev regionN allocOk slot baseBitmap newState).2.1.state
      = .FAULTY_STOPPED ∧
    (channel_faulty_base_bdev regionN allocOk slot baseBitmap newState).2.2.get k
      = (baseBitmap.get k || cb.get k) := by
  have h1 : ¬ (slot.state = .NONE ∧ newState = .FAULTY) := by
    rw [hst]
    simp
  have h2 : slot.state = .FAULTY ∧ newState = .FAULTY_STOPPED := ⟨hst, hnew⟩
  unfold channel_faulty_base_bdev
  rw [if_neg h1, if_pos h2]
  refine ⟨rfl, hnew, ?_⟩
  rw [hcb]
  simp only [Option.getD_some]
  rw [orInto_get]
  by_cases hk : k < regionN
  · have hkB : k < baseBitmap.bits.length := by omega
    simp [hk, hkB]
  · have hcbk : cb.get k = false := hconf k (by omega)
    simp [hk, hcbk]

/-- Witness for C5: a 2-region hand-off where the channel bitmap has bit 0
set and the mirror-owned bitmap has bit 1 set; the ORed bitmap has bit 0
set. -/
theorem channel_faulty_handoff_or_witness :
    ((Raid1ChannelSlot.mk .FAULTY (some ⟨[true, false]⟩)).state = .FAULTY ∧
      (BaseBdevState.FAULTY_STOPPED = .FAULTY_STOPPED) ∧
      (Raid1ChannelSlot.mk .FAULTY (some ⟨[true, false]⟩)).deltaBitmap
        = some ⟨[true, false]⟩ ∧
      (∀ i, 2 ≤ i → BitArray.get ⟨[true, false]⟩ i = false) ∧
      2 ≤ (BitArray.mk [false, true]).bits.length) ∧
    ((channel_faulty_base_bdev 2 true ⟨.FAULTY, some ⟨[true, false]⟩⟩
        ⟨[false, true]⟩ .FAULTY_STOPPED).1 = 0 ∧
     (channel_faulty_base_bdev 2 true ⟨.FAULTY, some ⟨[true, false]⟩⟩
        ⟨[false, true]⟩ .FAULTY_STOPPED).2.1.state = .FAULTY_STOPPED ∧
     (channel_faulty_base_bdev 2 true ⟨.FAULTY, some ⟨[true, false]⟩⟩
        ⟨[false, true]⟩ .FAULTY_STOPPED).2.2.get 0
       = (BitArray.get ⟨[false, true]⟩ 0 || BitArray.get ⟨[true, false]⟩ 0)) :=
  have hconf : ∀ i, 2 ≤ i → BitArray.get ⟨[true, false]⟩ i = false := fun i hi =>
    BitArray.get_of_length_le ⟨[true, false]⟩ i (by simpa using hi)
  ⟨⟨rfl, rfl, rfl, hconf, by decide⟩,
   channel_faulty_handoff_or 2 true ⟨.FAULTY, some ⟨[true, false]⟩⟩
     ⟨[true, false]⟩ ⟨[false, true]⟩ .FAULTY_STOPPED 0
     rfl rfl rfl hconf (by decide)⟩

/-- Model of `struct raid1_io_channel`: the three per-base arrays.  `deltaBitmaps`
is `none` when `delta_bitmap_enabled` is off (NULL array pointer); an inner
`none` is a NULL bitmap pointer. -/
structure Raid1IoChannel where
  read_blocks_outstanding : List Nat
  delta_bitmaps : Option (List (Option BitArray))
  states : List BaseBdevState
deriving DecidableEq, Repr

/-- Model of `channel_grow_base_bdev`.  `numBase` is the mirror's current
`num_base_bdevs` and `oldN` the channel's previous size
(`raid_bdev_channel_get_num_channels`).  `ok1`/`ok2` are the outcomes of the
two `realloc` calls; `g1`/`g2` model the indeterminate contents `realloc`
exposes beyond the preserved prefix (`realloc` keeps the old entries and
leaves the rest unspecified).  The code `memset`s exactly one appended
entry (at index `oldN`) of each reallocated array, and touches only the
`read_blocks_outstanding` and `delta_bitmaps` arrays. -/
def channel_grow_base_bdev (numBase oldN : Nat) (ch : Raid1IoChannel)
    (ok1 ok2 : Bool) (g1 : List Nat) (g2 : List (Option BitArray)) :
    Bool × Raid1IoChannel :=
  if oldN ≠ numBase then
    if ok1 = false then
      (false, ch)
    else
      let counters := ((ch.read_blocks_outstanding ++ g1).take numBase).set oldN 0
      let ch1 := { ch with read_blocks_outstanding := counters }
      match ch.delta_bitmaps with
      | none => (true, ch1)
      | some dbs =>
        if ok2 = false then
          (false, ch1)
        else
          (true, { ch1 with delta_bitmaps := some (((dbs ++ g2).take numBase).set oldN none) })
  else
    (true, ch)

/-- Claim C7 is contradicted by the code; this theorem evaluates
`channel_grow_base_bdev` at the failing inputs.  Growing a channel sized
for 1 base to a 3-base mirror (counters `[5]`, leftover heap contents
`[7, 9]`): the call succeeds yet the second appended counter entry keeps
the garbage value 9 instead of 0, and the `states` array is left at its old
length 1 — the claim's third array is never reallocated.  With delta
bitmaps enabled and the second realloc failing, the call returns false with
the counters array already grown, so the pre-grow state is not preserved. -/
theorem channel_grow_bug :
    (channel_grow_base_bdev 3 1 ⟨[5], none, [.NONE]⟩ true true [7, 9] []
      = (true, ⟨[5, 0, 9], none, [.NONE]⟩) ∧
     [5, 0, 9] ≠ [5, 0, 0] ∧
     (channel_grow_base_bdev 3 1 ⟨[5], none, [.NONE]⟩ true true [7, 9] []).2.states.length
       = 1) ∧
    ((channel_grow_base_bdev 3 1 ⟨[5], some [some ⟨[true]⟩], [.NONE]⟩ true false [7, 9]
        [none, none]).1 = false ∧
     (channel_grow_base_bdev 3 1 ⟨[5], some [some ⟨[true]⟩], [.NONE]⟩ true false [7, 9]
        [none, none]).2.read_blocks_outstanding = [5, 0, 9]) := by
  refine ⟨⟨?_, by decide, ?_⟩, ?_, ?_⟩ <;> rfl

/-- Claim C8 is contradicted by the code; this theorem evaluates the hot
path at the failing input.  With `blockcnt = 10` and
`optimal_io_boundary = 4` the number of regions is `ceil(10/4) = 3` and the
last block range has bit index `(10-1)/4 = 2`, but
`raid1_handle_faulty_base_bdev` allocates the bitmap with capacity
`blockcnt / boundary = 2` (integer division), so the write covering blocks
`[8, 10)` fails to record its region: bit 2 stays clear even though the
slot enters FAULTY tracking. -/
theorem delta_bitmap_capacity_bug :
    raid_bdev_delta_bitmap_region_blocks_number 10 4 = 3 ∧
    (raid1_handle_faulty_base_bdev 10 4 true 8 2 true ⟨.NONE, none⟩).state = .FAULTY ∧
    (∀ bm, (raid1_handle_faulty_base_bdev 10 4 true 8 2 true ⟨.NONE, none⟩).deltaBitmap
        = some bm → bm.capacity = 2 ∧ bm.get 2 = false) ∧
    ¬ ((10 - 1) / 4 < 10 / 4) := by
  refine ⟨rfl, rfl, ?_, by decide⟩
  intro bm hbm
  have : (raid1_handle_faulty_base_bdev 10 4 true 8 2 true ⟨.NONE, none⟩).deltaBitmap
      = some (setRangeIncl (bitArrayCreate 2) 2 2) := rfl
  rw [this] at hbm
  cases hbm
  constructor
  · rfl
  · rfl

/-- Model of `spdk_divide_round_up`. -/
def spdk_divide_round_up (num divisor : Nat) : Nat :=
  (num + divisor - 1) / divisor

theorem divide_round_up_of_dvd (num divisor : Nat) (hd : 0 < divisor)
    (h : divisor ∣ num) : spdk_divide_round_up num divisor = num / divisor := by
  obtain ⟨q, rfl⟩ := h
  unfold spdk_divide_round_up
  rw [Nat.mul_div_cancel_left q hd]
  have h1 : divisor * q + divisor - 1 = (divisor - 1) + divisor * q := by omega
  rw [h1, Nat.add_mul_div_left _ _ hd, Nat.div_eq_of_lt (by omega), Nat.zero_add]

/-- Model of `struct fragmap_io`: the scan state of the fragmap RPC. -/
structure FragmapIo where
  fragmap : BitArray
  cluster_size : Nat
  block_size : Nat
  num_allocated_clusters : Nat
  offset : Nat
  size : Nat
  current_offset : Nat
deriving DecidableEq, Repr

/-- The continuation chosen by a scan step: emit the JSON result
(`get_fragmap_done`) or issue the next `spdk_bdev_seek_data` from the given
block. -/
inductive FragmapAction
  | emit
  | seekData (offsetBlocks : Nat)
deriving DecidableEq, Repr

/-- Model of `seek_hole_done_cb`: completion of a SEEK_HOLE whose resulting seek
offset is `b` blocks.  Clamps `next_offset` to `offset + size`, sets the
clusters of the data run `[current_offset, next_offset)`, accumulates
`num_allocated_clusters`, advances `current_offset`, and either emits or
issues SEEK_DATA. -/
def seek_hole_done_cb (io : FragmapIo) (b : Nat) : FragmapIo × FragmapAction :=
  let next_offset := min (b * io.block_size) (io.offset + io.size)
  let start_cluster := spdk_divide_round_up (io.current_offset - io.offset) io.cluster_size
  let num_clusters := spdk_divide_round_up (next_offset - io.current_offset) io.cluster_size
  let io' : FragmapIo := { io with
    fragmap := setManyFrom io.fragmap start_cluster num_clusters,
    num_allocated_clusters := io.num_allocated_clusters + num_clusters,
    current_offset := next_offset }
  (io',
   if next_offset = io.offset + io.size then
     .emit
   else
     .seekData (spdk_divide_round_up next_offset io.block_size))

/-- Claim C9: a SEEK_HOLE completion at block `b` computes
`next = min(b * block_size, offset + size)`, sets exactly the fragmap bits
in `[(current - offset) / cluster_size, (next - offset) / cluster_size)`
(stated pointwise at every index `k`), adds their count to
`num_allocated_clusters`, sets `current = next`, and emits exactly when
`current = offset + size`, otherwise issuing SEEK_DATA.  The hypotheses:
positive cluster size; the scan position lies in `[offset, offset + size]`
and does not exceed the seek result; `offset`-relative positions are
cluster-aligned (data runs of a logical volume are cluster-granular); and
the bitmap capacity covers the scanned window (it is created with
`size / cluster_size` bits). -/
theorem seek_hole_step (io : FragmapIo) (b : Nat) (k : Nat)
    (hcs : 0 < io.cluster_size)
    (hoff : io.offset ≤ io.current_offset)
    (hb : io.current_offset ≤ b * io.block_size)
    (hsz : io.current_offset ≤ io.offset + io.size)
    (hd1 : io.cluster_size ∣ (io.current_offset - io.offset))
    (hd2 : io.cluster_size ∣ (min (b * io.block_size) (io.offset + io.size) - io.offset))
    (hcap : (min (b * io.block_size) (io.offset + io.size) - io.offset) / io.cluster_size
      ≤ io.fragmap.bits.length) :
    ((seek_hole_done_cb io b).1.current_offset
        = min (b * io.block_size) (io.offset + io.size)) ∧
    ((seek_hole_done_cb io b).1.num_allocated_clusters
        = io.num_allocated_clusters +
          ((min (b * io.block_size) (io.offset + io.size) - io.offset) / io.cluster_size
            - (io.current_offset - io.offset) / io.cluster_size)) ∧
    ((seek_hole_done_cb io b).1.fragmap.get k
        = (io.fragmap.get k ||
            (decide ((io.current_offset - io.offset) / io.cluster_size ≤ k) &&
             decide (k < (min (b * io.block_size) (io.offset + io.size) - io.offset)
               / io.cluster_size)))) ∧
    ((seek_hole_done_cb io b).1.current_offset = io.offset + io.size →
      (seek_hole_done_cb io b).2 = .emit) ∧
    ((seek_hole_done_cb io b).1.current_offset ≠ io.offset + io.size →
      (seek_hole_done_cb io b).2
        = .seekData (spdk_divide_round_up
            (min (b * io.block_size) (io.offset + io.size)) io.block_size)) := by
  have hnext : io.current_offset ≤ min (b * io.block_size) (io.offset + io.size) :=
    le_min hb hsz
  obtain ⟨q1, hq1⟩ := hd1
  obtain ⟨q2, hq2⟩ := hd2
  have hq12 : q1 ≤ q2 := by
    have hle : io.cluster_size * q1 ≤ io.cluster_size * q2 := by omega
    exact Nat.le_of_mul_le_mul_left hle hcs
  have hA : (io.current_offset - io.offset) / io.cluster_size = q1 := by
    rw [hq1, Nat.mul_div_cancel_left q1 hcs]
  have hB : (min (b * io.block_size) (io.offset + io.size) - io.offset) / io.cluster_size
      = q2 := by
    rw [hq2, Nat.mul_div_cancel_left q2 hcs]
  have hstart : spdk_divide_round_up (io.current_offset - io.offset) io.cluster_size = q1 := by
    rw [divide_round_up_of_dvd _ _ hcs ⟨q1, hq1⟩, hA]
  have hdiff : min (b * io.block_size) (io.offset + io.size) - io.current_offset
      = io.cluster_size * (q2 - q1) := by
    have e2 : io.cluster_size * q2 = io.cluster_size * q1 + io.cluster_size * (q2 - q1) := by
      rw [← Nat.mul_add]
      congr 1
      omega
    omega
  have hnum : spdk_divide_round_up
      (min (b * io.block_size) (io.offset + io.size) - io.current_offset) io.cluster_size
      = q2 - q1 := by
    rw [divide_round_up_of_dvd _ _ hcs ⟨q2 - q1, hdiff⟩, hdiff,
      Nat.mul_div_cancel_left _ hcs]
  unfold seek_hole_done_cb
  simp only [hstart, hnum]
  refine ⟨trivial, ?_, ?_, ?_, ?_⟩
  · rw [hA, hB]
  · show (setManyFrom io.fragmap q1 (q2 - q1)).get k = _
    rw [setManyFrom_get, hA, hB]
    by_cases h1 : q1 ≤ k
    · by_cases h2 : k < q2
      · have h2' : k < q1 + (q2 - q1) := by omega
        have h3 : k < io.fragmap.bits.length := by
          rw [hB] at hcap
          omega
        simp [h1, h2, h2', h3]
      · have h2' : ¬ k < q1 + (q2 - q1) := by omega
        simp [h2, h2']
    · simp [h1]
  · intro h
    have h' : min (b * io.block_size) (io.offset + io.size) = io.offset + io.size := h
    show (if min (b * io.block_size) (io.offset + io.size) = io.offset + io.size then
        FragmapAction.emit
      else
        FragmapAction.seekData (spdk_divide_round_up
          (min (b * io.block_size) (io.offset + io.size)) io.block_size)) = FragmapAction.emit
    rw [if_pos h']
  · intro h
    have h' : ¬ min (b * io.block_size) (io.offset + io.size) = io.offset + io.size := h
    show (if min (b * io.block_size) (io.offset + io.size) = io.offset + io.size then
        FragmapAction.emit
      else
        FragmapAction.seekData (spdk_divide_round_up
          (min (b * io.block_size) (io.offset + io.size)) io.block_size))
      = FragmapAction.seekData (spdk_divide_round_up
          (min (b * io.block_size) (io.offset + io.size)) io.block_size)
    rw [if_neg h']

/-- Witness for C9: cluster size 2, block size 1, window `[0, 8)`, scan
position 2, SEEK_HOLE lands at block 6: clusters 1 and 2 are set, the count
grows by 2, and the scan continues with SEEK_DATA from block 6. -/
theorem seek_hole_step_witness :
    (0 < 2 ∧ 0 ≤ 2 ∧ 2 ≤ 6 * 1 ∧ 2 ≤ 0 + 8 ∧ (2 : Nat) ∣ (2 - 0) ∧
      (2 : Nat) ∣ (min (6 * 1) (0 + 8) - 0) ∧
      (min (6 * 1) (0 + 8) - 0) / 2 ≤ (bitArrayCreate 4).bits.length) ∧
    ((seek_hole_done_cb ⟨bitArrayCreate 4, 2, 1, 1, 0, 8, 2⟩ 6).1.current_offset
        = min (6 * 1) (0 + 8) ∧
     (seek_hole_done_cb ⟨bitArrayCreate 4, 2, 1, 1, 0, 8, 2⟩ 6).1.num_allocated_clusters
        = 1 + ((min (6 * 1) (0 + 8) - 0) / 2 - (2 - 0) / 2) ∧
     ((seek_hole_done_cb ⟨bitArrayCreate 4, 2, 1, 1, 0, 8, 2⟩ 6).1.fragmap.get 1
        = ((bitArrayCreate 4).get 1 ||
            (decide ((2 - 0) / 2 ≤ 1) && decide (1 < (min (6 * 1) (0 + 8) - 0) / 2)))) ∧
     ((seek_hole_done_cb ⟨bitArrayCreate 4, 2, 1, 1, 0, 8, 2⟩ 6).1.current_offset
        = 0 + 8 →
      (seek_hole_done_cb ⟨bitArrayCreate 4, 2, 1, 1, 0, 8, 2⟩ 6).2 = .emit) ∧
     ((seek_hole_done_cb ⟨bitArrayCreate 4, 2, 1, 1, 0, 8, 2⟩ 6).1.current_offset
        ≠ 0 + 8 →
      (seek_hole_done_cb ⟨bitArrayCreate 4, 2, 1, 1, 0, 8, 2⟩ 6).2
        = .seekData (spdk_divide_round_up (min (6 * 1) (0 + 8)) 1))) :=
  ⟨⟨by decide, by decide, by decide, by decide, by decide, by decide, by decide⟩,
   seek_hole_step ⟨bitArrayCreate 4, 2, 1, 1, 0, 8, 2⟩ 6 1
     (by decide) (by decide) (by decide) (by decide) (by decide) (by decide) (by decide)⟩

end Spdk

